import Mathlib

/-!
Verification of the Devora commit-evidence pipeline (`api.py`).

The Python source is shallowly embedded: Python strings are `List Char`,
and the two core functions `get_commits` and `call_llm` are translated
line by line.  Network interactions are modelled by explicit data: the
paginated commit-history responses are given to `get_commits` as a list
of pages (one entry per transport request the loop would issue, in
request order), each commit carries the status and body of its own diff
request, and the judge service's outcome (raised error or returned
text) is given to `call_llm` as input.  Numeric literals parsed by
Python's `float` are represented exactly as rationals; no claim depends
on binary floating-point rounding.
-/

namespace Devora

/-- ASCII model of Python whitespace, the characters removed by `str.strip()`. -/
def isPySpace (c : Char) : Bool :=
  c = ' ' || c = '\t' || c = '\n' || c = '\r' || c = '\x0b' || c = '\x0c'

/-- Drop the maximal run of characters satisfying `p` from the end of `l`. -/
def dropTrailing (p : Char → Bool) (l : List Char) : List Char :=
  (l.reverse.dropWhile p).reverse

/-- Python `str.strip(chars)`: characters satisfying `p` are removed from both
ends.  Removing the trailing run and then the leading run gives the same
result as Python's simultaneous two-ended strip. -/
def stripBy (p : Char → Bool) (l : List Char) : List Char :=
  (dropTrailing p l).dropWhile p

/-- Python `str.strip()` with no argument (whitespace strip). -/
def pyStripWs (l : List Char) : List Char := stripBy isPySpace l

/-- Python `str.strip('>')`, as applied to the author email (api.py:69). -/
def pyStripGt (l : List Char) : List Char := stripBy (fun c => c = '>') l

/-- Python `str.split(sep)` for a one-character separator: splits at every
occurrence of `sep`; the result always has at least one element. -/
def pySplitChar (sep : Char) : List Char → List (List Char)
  | [] => [[]]
  | c :: rest =>
    match pySplitChar sep rest with
    | [] => [[]]
    | s :: ss => if c = sep then [] :: s :: ss else (c :: s) :: ss

/-- Python `needle in haystack` substring test (api.py:129). -/
def pyIn (needle : List Char) : List Char → Bool
  | [] => needle.isEmpty
  | c :: rest => needle.isPrefixOf (c :: rest) || pyIn needle rest

/-- Python `', '.join(xs)` (api.py:70). -/
def joinCommaSpace (xs : List (List Char)) : List Char :=
  List.intercalate (", ".toList) xs

/-! ### The tag-block regex

`re.compile(r"testcase\s*:\s*\[([^\]]+)\]", re.IGNORECASE)` (api.py:31),
used via `.search` on the stripped commit message (api.py:51).  The
pattern is deterministic: at a given start position it matches iff the
text begins with `testcase` (case-insensitively), then optional
whitespace, `:`, optional whitespace, `[`, and at least one character
before a closing `]`; the capture is everything strictly between `[`
and the first following `]`.  `search` returns the match at the
leftmost position where one exists. -/

/-- Attempt to match the tag-block pattern at the start of `s`, returning the
captured group on success. -/
def matchTagAt (s : List Char) : Option (List Char) :=
  if (s.take 8).map Char.toLower = "testcase".toList then
    match (s.drop 8).dropWhile isPySpace with
    | ':' :: r2 =>
      match r2.dropWhile isPySpace with
      | '[' :: r3 =>
        let cap := r3.takeWhile (fun c => c ≠ ']')
        if !cap.isEmpty && cap.length < r3.length then some cap else none
      | _ => none
    | _ => none
  else none

/-- `function_id_pattern.search(message)`: leftmost match of the tag-block
pattern, returning the captured group. -/
def findTag : List Char → Option (List Char)
  | [] => none
  | c :: rest =>
    match matchTagAt (c :: rest) with
    | some cap => some cap
    | none => findTag rest

/-! ### The verdict token regex

`re.findall(r'\b(yes|no|\d+(?:\.\d+)?)\b', ans, re.IGNORECASE)`
(api.py:111).  Tokens are matched left to right, non-overlapping;
alternatives are tried in order `yes`, `no`, number.  `\w` (hence `\b`)
is modelled over ASCII word characters, which covers every input the
claims are about.  A matched `yes`/`no` is only ever used lowercased
(`n.lower()`, api.py:117) and a matched number only via `float(n)`, so a
token records either the lowercased word or the digit strings. -/

/-- One token produced by the verdict-extraction regex: the word yes, the word
no, or a decimal number with integer part and (possibly empty) fractional
part. -/
inductive Tok where
  | yes
  | no
  | num (intPart fracPart : List Char)
deriving DecidableEq

/-- ASCII `\w`: letters, digits, underscore. -/
def isWordCh (c : Char) : Bool := c.isAlpha || c.isDigit || c = '_'

/-- `\b` holds between the end of a token and the remaining text `s`. -/
def boundaryAfter (s : List Char) : Bool :=
  match s with
  | [] => true
  | c :: _ => !isWordCh c

/-- Try the alternative `yes` (case-insensitive, trailing `\b`); on success
return the remaining text. -/
def tryYes : List Char → Option (List Char)
  | a :: b :: c :: rest =>
    if a.toLower = 'y' && b.toLower = 'e' && c.toLower = 's' && boundaryAfter rest
    then some rest else none
  | _ => none

/-- Try the alternative `no` (case-insensitive, trailing `\b`); on success
return the remaining text. -/
def tryNo : List Char → Option (List Char)
  | a :: b :: rest =>
    if a.toLower = 'n' && b.toLower = 'o' && boundaryAfter rest
    then some rest else none
  | _ => none

/-- Try the alternative `\d+(?:\.\d+)?` with trailing `\b`.  The engine takes
the maximal digit run; a fractional part is kept only if the boundary holds
after it, otherwise the optional group is dropped (the boundary after the
integer part then holds at the `.`).  With no fractional part available the
match succeeds iff the character after the digits is not a word character. -/
def tryNum (s : List Char) : Option (Tok × List Char) :=
  let ds := s.takeWhile Char.isDigit
  if ds.isEmpty then none
  else
    match s.drop ds.length with
    | '.' :: r2 =>
      let fs := r2.takeWhile Char.isDigit
      if !fs.isEmpty && boundaryAfter (r2.drop fs.length)
      then some (Tok.num ds fs, r2.drop fs.length)
      else some (Tok.num ds [], '.' :: r2)
    | r => if boundaryAfter r then some (Tok.num ds [], r) else none

/-- Try the three alternatives in the pattern's order at the current position. -/
def tryTok (s : List Char) : Option (Tok × List Char) :=
  match tryYes s with
  | some r => some (Tok.yes, r)
  | none =>
    match tryNo s with
    | some r => some (Tok.no, r)
    | none => tryNum s

/-- Left-to-right non-overlapping scan.  `prev` records whether the previous
character is a word character: every alternative starts with a word
character, so the leading `\b` holds exactly when `prev` is false.  After a
match the last consumed character is a word character.  The fuel argument
only bounds the recursion; it is initialised with the text length, which
always suffices since every step consumes at least one character. -/
def scanToks : Nat → Bool → List Char → List Tok
  | 0, _, _ => []
  | _ + 1, _, [] => []
  | fuel + 1, prev, c :: rest =>
    if prev then scanToks fuel (isWordCh c) rest
    else
      match tryTok (c :: rest) with
      | some (t, r) => t :: scanToks fuel true r
      | none => scanToks fuel (isWordCh c) rest

/-- `re.findall(r'\b(yes|no|\d+(?:\.\d+)?)\b', s, re.IGNORECASE)`. -/
def findall (s : List Char) : List Tok := scanToks s.length false s

/-- Numeric value of a digit string. -/
def natOfDigits (l : List Char) : Nat :=
  l.foldl (fun n c => 10 * n + (c.toNat - 48)) 0

/-- Exact value of the decimal literal `intPart.fracPart` (Python `float(n)`,
api.py:121, represented exactly): the integer part plus the fractional
digits over the matching power of ten. -/
def ratOfParts (intPart fracPart : List Char) : Rat :=
  mkRat (natOfDigits intPart * 10 ^ fracPart.length + natOfDigits fracPart)
    (10 ^ fracPart.length)

/-- Does this token come from the `yes`/`no` alternatives?  This is the model
of the test `n.lower() in ["yes", "no"]` (api.py:117). -/
def isYesNoTok : Tok → Bool
  | Tok.yes => true
  | Tok.no => true
  | Tok.num _ _ => false

/-- Model of the comprehension filter + `float(n)` (api.py:121): numeric
tokens yield their value, `yes`/`no` tokens are dropped. -/
def numValOf : Tok → Option Rat
  | Tok.num i f => some (ratOfParts i f)
  | _ => none

/-- The `for n in numbers: if n.lower() in ["yes","no"]: progress = n.lower();
break` loop (api.py:116-119): the first yes/no token, lowercased, with
default `"None"`. -/
def progressOf (toks : List Tok) : List Char :=
  match toks.find? isYesNoTok with
  | some Tok.yes => "yes".toList
  | some Tok.no => "no".toList
  | _ => "None".toList

/-- `num_values = [...]; if len(num_values) >= 1: est_hours = num_values[0]`
(api.py:121-123): the first numeric token's value, with default `0`. -/
def estHoursOf (toks : List Tok) : Rat :=
  match (toks.filterMap numValOf).head? with
  | some q => q
  | none => 0

/-- Outcome of the judge-service invocation `model.generate_content(prompt)`
(api.py:102): either an exception whose message is the given text, or a
successful completion with the given text. -/
inductive LlmOutcome where
  | raises (msg : List Char)
  | returns (text : List Char)

/-- `call_llm` (api.py:83-134), parameterised by the judge outcome.  The
prompt construction only feeds the judge and is irrelevant to the returned
triple `(status, progress, est_hours)`.  On a raised error the handler
(api.py:128-134) returns 413 when the message contains `context window` or
`token`, else 500.  On returned text the parsing heuristic (api.py:103-127)
applies; the second numeric token (`llm_token_count`) is only printed, so it
does not appear in the result. -/
def call_llm (outcome : LlmOutcome) : Nat × List Char × Rat :=
  match outcome with
  | LlmOutcome.raises e =>
    if pyIn ("context window".toList) e || pyIn ("token".toList) e
    then (413, "None".toList, 0)
    else (500, "None".toList, 0)
  | LlmOutcome.returns t =>
    let ans := pyStripWs t
    let toks := findall ans
    if toks.isEmpty then (200, "None".toList, 0)
    else (200, progressOf toks, estHoursOf toks)

/-- `estimate_token_count` (api.py:136-138). -/
def estimate_token_count (text : List Char) : Nat := text.length / 4

/-! ### Evidence Collector (`get_commits`, api.py:24-79)

A commit from one page of the Bitbucket commit-history response carries
`hash`, `message` and `author.raw`; the diff endpoint's response for
this commit (status and body of the GET at api.py:62) is stored on the
commit itself, since its URL depends only on the commit hash.  A page
is one response of the history endpoint: its HTTP status, its `values`
list, and whether a `next` URL is present.  `get_commits` receives the
transport's responses as a list of pages in request order; the list
must cover every page the loop requests (the theorems' hypotheses
guarantee this), and a request beyond its end is reported as
`outOfPages`. -/

/-- One commit of a history page, with the outcome of its diff request. -/
structure Commit where
  hash : List Char
  message : List Char
  authorRaw : List Char
  diffStatus : Nat
  diffText : List Char
deriving DecidableEq

/-- One response of the paginated commit-history endpoint. -/
structure Page where
  status : Nat
  values : List Commit
  next : Bool
deriving DecidableEq

/-- The `commit_document` dictionary (api.py:65-72). -/
structure Evidence where
  hash : List Char
  message : List Char
  author_username : List Char
  author_email : List Char
  function_id : List Char
  code_diff : Option (List Char)
deriving DecidableEq

/-- Result of handling one commit: `crash` models the uncaught `IndexError`
of `commit["author"]["raw"].split("<")[1]` (api.py:69) when the raw author
string has no `<`, `skip` a commit filtered out, `emit` an appended
evidence record. -/
inductive EvStep where
  | crash
  | skip
  | emit (e : Evidence)
deriving DecidableEq

/-- `filter_ids = [fid.strip() for fid in function_id.split(",")]`
(api.py:56); constant across the loop, so hoisted out of it. -/
def filterIdsOf (function_id : List Char) : List (List Char) :=
  (pySplitChar ',' function_id).map pyStripWs

/-- `testcase_ids = [tc.strip() for tc in match.group(1).split(",")]`
(api.py:54), applied to a captured tag group. -/
def tagIdsOf (cap : List Char) : List (List Char) :=
  (pySplitChar ',' cap).map pyStripWs

/-- The author split of api.py:68-69: `raw.split("<")[0].strip()` and
`raw.split("<")[1].strip().strip('>')`.  `split` always returns a nonempty
list, so the `[0]` access is safe; the `[1]` access raises `IndexError`
(modelled as `none`) exactly when the raw string contains no `<`. -/
def parseAuthor (raw : List Char) : Option (List Char × List Char) :=
  match pySplitChar '<' raw with
  | p0 :: p1 :: _ => some (pyStripWs p0, pyStripGt (pyStripWs p1))
  | _ => none

/-- The body of the per-commit loop (api.py:49-73): strip the message,
search for the tag block, test the requested ids against the declared ids,
and for a matching commit resolve the diff, split the author and build the
evidence record.  In Python the diff request happens before the author
split raises; only the produced record (or the crash) is observable here. -/
def mkEvidence (filterIds : List (List Char)) (c : Commit) : EvStep :=
  let message := pyStripWs c.message
  match findTag message with
  | none => EvStep.skip
  | some cap =>
    let testcaseIds := tagIdsOf cap
    if filterIds.any (fun fid => testcaseIds.contains fid) then
      match parseAuthor c.authorRaw with
      | none => EvStep.crash
      | some (u, em) =>
        EvStep.emit
          { hash := c.hash
            message := message
            author_username := u
            author_email := em
            function_id :=
              joinCommaSpace (testcaseIds.filter (fun fid => filterIds.contains fid))
            code_diff := if c.diffStatus = 200 then some c.diffText else none }
    else EvStep.skip

/-- Process the `values` list of one page in order, propagating a crash. -/
def processCommits (filterIds : List (List Char)) : List Commit → Option (List Evidence)
  | [] => some []
  | c :: cs =>
    match mkEvidence filterIds c with
    | EvStep.crash => none
    | EvStep.skip => processCommits filterIds cs
    | EvStep.emit e => (processCommits filterIds cs).map (e :: ·)

/-- Total variant of `mkEvidence` for stating aggregate results: the record
if one is produced, `none` otherwise.  It agrees with `mkEvidence` whenever
no crash occurs. -/
def mkEvidence? (filterIds : List (List Char)) (c : Commit) : Option Evidence :=
  match mkEvidence filterIds c with
  | EvStep.emit e => some e
  | _ => none

/-- The matching records of a list of pages, in page and commit order. -/
def pagesRecs (filterIds : List (List Char)) : List Page → List Evidence
  | [] => []
  | p :: ps => p.values.filterMap (mkEvidence? filterIds) ++ pagesRecs filterIds ps

/-- Overall result of a collection run.  `exn` is an uncaught Python
exception escaping `get_commits`; `outOfPages` means the loop requested a
page beyond the modelled transport responses (not reachable under the
theorems' hypotheses). -/
inductive CollectResult where
  | ok (status : Nat) (records : List Evidence) (requests : Nat)
  | exn
  | outOfPages
deriving DecidableEq

/-- `if filtered_commits: return 200, filtered_commits else: return 404, []`
(api.py:76-79), with the number of page requests recorded. -/
def finishAcc (acc : List Evidence) (cnt : Nat) : CollectResult :=
  if acc.isEmpty then CollectResult.ok 404 [] cnt else CollectResult.ok 200 acc cnt

/-- The `while next_url:` loop (api.py:36-74).  On the first iteration a
non-200 status returns immediately (api.py:38-44).  A 200 page has its
commits processed and pagination follows its `next` pointer; on a non-200
later page `next_url` is set to `None` (api.py:74) and the loop falls
through to the final return. -/
def collectLoop (filterIds : List (List Char)) :
    List Page → Bool → List Evidence → Nat → CollectResult
  | [], _, _, _ => CollectResult.outOfPages
  | p :: rest, first, acc, cnt =>
    if first ∧ p.status ≠ 200 then CollectResult.ok p.status [] (cnt + 1)
    else if p.status = 200 then
      match processCommits filterIds p.values with
      | none => CollectResult.exn
      | some evs =>
        if p.next then collectLoop filterIds rest false (acc ++ evs) (cnt + 1)
        else finishAcc (acc ++ evs) (cnt + 1)
    else finishAcc acc (cnt + 1)

/-- `get_commits` (api.py:24-79), over the modelled transport responses. -/
def get_commits (function_id : List Char) (pages : List Page) : CollectResult :=
  collectLoop (filterIdsOf function_id) pages true [] 0

/-- The author rendering `f"{username} <{email}>"` inside the prompt's
commit block (api.py:90). -/
def renderAuthor (username email : List Char) : List Char :=
  username ++ ' ' :: '<' :: (email ++ ['>'])

/-! ### Specification-side descriptions of the parsing heuristic

These two functions follow the spec's words ("the first yes/no token
encountered anywhere in the text becomes alignment", "the first numeric
token becomes estimated_hours") by direct recursion on the token
stream; they are compared against the code's extraction. -/

/-- Spec reading: the first yes/no token of the stream, lowercased, default
`"None"`. -/
def specFirstAlign : List Tok → List Char
  | [] => "None".toList
  | Tok.yes :: _ => "yes".toList
  | Tok.no :: _ => "no".toList
  | Tok.num _ _ :: r => specFirstAlign r

/-- Spec reading: the value of the first numeric token of the stream,
default `0`. -/
def specFirstHours : List Tok → Rat
  | [] => 0
  | Tok.num i f :: _ => ratOfParts i f
  | _ :: r => specFirstHours r

/-- The same page with its next pointer removed: used to compare a run that
is cut short by a failing page against the complete run over the pages
that did succeed. -/
def withNextFalse (p : Page) : Page :=
  { p with next := false }

lemma progressOf_eq_specFirstAlign (toks : List Tok) :
    progressOf toks = specFirstAlign toks := by
  induction toks with
  | nil => rfl
  | cons t r ih =>
    cases t with
    | yes => simp [progressOf, specFirstAlign, List.find?_cons, isYesNoTok]
    | no => simp [progressOf, specFirstAlign, List.find?_cons, isYesNoTok]
    | num i f =>
      simp only [progressOf, specFirstAlign, List.find?_cons, isYesNoTok, cond_false]
      exact ih

lemma estHoursOf_eq_specFirstHours (toks : List Tok) :
    estHoursOf toks = specFirstHours toks := by
  induction toks with
  | nil => rfl
  | cons t r ih =>
    cases t with
    | yes =>
      simp only [estHoursOf, specFirstHours, List.filterMap_cons, numValOf]
      exact ih
    | no =>
      simp only [estHoursOf, specFirstHours, List.filterMap_cons, numValOf]
      exact ih
    | num i f => simp [estHoursOf, specFirstHours, List.filterMap_cons, numValOf]

lemma call_llm_returns_eq (text : List Char) :
    call_llm (LlmOutcome.returns text) =
      (200, progressOf (findall (pyStripWs text)), estHoursOf (findall (pyStripWs text))) := by
  show (if (findall (pyStripWs text)).isEmpty then _ else _) = _
  rcases h : findall (pyStripWs text) with _ | ⟨t, r⟩
  · simp [progressOf, estHoursOf]
  · simp

/-! ### Claims C1, C3, C6, C7: the Verdict Extractor -/

/-- C3: for every judge response text, `call_llm` returns status 200, the
alignment is the first yes/no token found anywhere in the (stripped) text,
and `estimated_hours` is the value of the first numeric token; any second
numeric token never reaches the result.  In particular the input
`"no, 8, 450"` parses to alignment `"no"` and hours `8`. -/
theorem C3_first_match :
    (∀ text : List Char,
      call_llm (LlmOutcome.returns text) =
        (200, specFirstAlign (findall (pyStripWs text)),
          specFirstHours (findall (pyStripWs text))))
    ∧ call_llm (LlmOutcome.returns ("no, 8, 450".toList)) = (200, "no".toList, (8 : Rat)) := by
  constructor
  · intro text
    rw [call_llm_returns_eq, progressOf_eq_specFirstAlign, estHoursOf_eq_specFirstHours]
  · decide

/-- C1, counterexample: the judge response `"42"` contains a numeric token
but no yes/no token; `call_llm` then returns alignment `"None"` (the
extraction-failure marker) together with `estimated_hours = 42 ≠ 0`, so the
claimed invariant "estimated_hours is 0 whenever alignment is none" fails
on the code. -/
theorem C1_counterexample :
    call_llm (LlmOutcome.returns ("42".toList)) = (200, "None".toList, (42 : Rat))
    ∧ (42 : Rat) ≠ 0 := by
  constructor
  · decide
  · norm_num

/-- C1, amended: `estimated_hours` is 0 whenever the response contains no
numeric token; a response with no yes/no token yields the
extraction-failure alignment `"None"` while `estimated_hours` is still the
value of the first numeric token (so it is nonzero whenever that token is). -/
theorem C1_amended (text : List Char) :
    ((findall (pyStripWs text)).filterMap numValOf = [] →
      (call_llm (LlmOutcome.returns text)).2.2 = 0)
    ∧ ((∀ t ∈ findall (pyStripWs text), isYesNoTok t = false) →
      (call_llm (LlmOutcome.returns text)).2.1 = "None".toList ∧
      (call_llm (LlmOutcome.returns text)).2.2
        = specFirstHours (findall (pyStripWs text))) := by
  rw [call_llm_returns_eq]
  refine ⟨fun h => ?_, fun h => ⟨?_, ?_⟩⟩
  · simp [estHoursOf, h]
  · have : (findall (pyStripWs text)).find? isYesNoTok = none :=
      List.find?_eq_none.mpr (by simpa using h)
    simp [progressOf, this]
  · exact estHoursOf_eq_specFirstHours _

theorem C1_amended_witness :
    (call_llm (LlmOutcome.returns ("hi!".toList))).2.2 = 0
    ∧ (call_llm (LlmOutcome.returns ("hi!".toList))).2.1 = "None".toList :=
  ⟨(C1_amended ("hi!".toList)).1 (by decide),
    ((C1_amended ("hi!".toList)).2 (by decide)).1⟩

/-- C6: when the judge service raises an error, `call_llm` returns
`(413, "None", 0)` whenever the error text contains the substring `token`
(a context/token-limit indicator), `(500, "None", 0)` whenever it contains
neither indicator substring, and no outcome besides these two is possible. -/
theorem C6_judge_error (e : List Char) :
    (pyIn ("token".toList) e = true →
      call_llm (LlmOutcome.raises e) = (413, "None".toList, 0))
    ∧ (pyIn ("context window".toList) e = false → pyIn ("token".toList) e = false →
      call_llm (LlmOutcome.raises e) = (500, "None".toList, 0))
    ∧ (call_llm (LlmOutcome.raises e) = (413, "None".toList, 0)
      ∨ call_llm (LlmOutcome.raises e) = (500, "None".toList, 0)) := by
  have hr : call_llm (LlmOutcome.raises e)
      = if pyIn ("context window".toList) e || pyIn ("token".toList) e
        then (413, "None".toList, 0) else (500, "None".toList, 0) := rfl
  refine ⟨fun h => ?_, fun h1 h2 => ?_, ?_⟩
  · rw [hr, h]
    simp
  · rw [hr, h1, h2]
    simp
  · rw [hr]
    split
    · exact Or.inl rfl
    · exact Or.inr rfl

theorem C6_judge_error_witness :
    call_llm (LlmOutcome.raises ("token limit exceeded".toList)) = (413, "None".toList, 0) :=
  (C6_judge_error ("token limit exceeded".toList)).1 (by decide)

/-- C7: a judge response in which the token scan finds nothing (no yes/no
token and no numeric token) yields status 200 with alignment `"None"` and
hours 0 — a parse miss is not a service failure. -/
theorem C7_parse_miss (text : List Char)
    (h : findall (pyStripWs text) = []) :
    call_llm (LlmOutcome.returns text) = (200, "None".toList, 0) := by
  show (if (findall (pyStripWs text)).isEmpty then _ else _) = _
  rw [h]
  rfl

theorem C7_parse_miss_witness :
    call_llm (LlmOutcome.returns ("maybe!".toList)) = (200, "None".toList, 0) :=
  C7_parse_miss ("maybe!".toList) (by decide)

/-! ### Helper lemmas on the string primitives -/

lemma pySplitChar_ne_nil (sep : Char) (l : List Char) : pySplitChar sep l ≠ [] := by
  cases l with
  | nil => simp [pySplitChar]
  | cons c rest =>
    rcases hps : pySplitChar sep rest with _ | ⟨s, ss⟩
    · simp [pySplitChar, hps]
    · simp only [pySplitChar, hps]
      split <;> simp

lemma pySplitChar_of_no_sep (sep : Char) (l : List Char) (h : ∀ c ∈ l, c ≠ sep) :
    pySplitChar sep l = [l] := by
  induction l with
  | nil => rfl
  | cons c rest ih =>
    have hc : c ≠ sep := h c (List.mem_cons_self c rest)
    simp only [pySplitChar, ih (fun x hx => h x (List.mem_cons_of_mem _ hx))]
    simp [hc]

lemma pySplitChar_append_sep (sep : Char) (l r : List Char) (h : ∀ c ∈ l, c ≠ sep) :
    pySplitChar sep (l ++ sep :: r) = l :: pySplitChar sep r := by
  induction l with
  | nil =>
    rcases hps : pySplitChar sep r with _ | ⟨s, ss⟩
    · exact absurd hps (pySplitChar_ne_nil sep r)
    · simp [pySplitChar, hps]
  | cons c l ih =>
    have hc : c ≠ sep := h c (List.mem_cons_self c l)
    have hrw := ih (fun x hx => h x (List.mem_cons_of_mem _ hx))
    rw [List.cons_append,
      show pySplitChar sep (c :: (l ++ sep :: r))
          = (match pySplitChar sep (l ++ sep :: r) with
             | [] => [[]]
             | s :: ss => if c = sep then [] :: s :: ss else (c :: s) :: ss) from rfl,
      hrw]
    simp [hc]

lemma dropWhile_eq_self_of_head (p : Char → Bool) (l : List Char)
    (h : ∀ c ∈ l.take 1, p c = false) : l.dropWhile p = l := by
  cases l with
  | nil => rfl
  | cons c rest =>
    have hc : p c = false := h c (by simp)
    simp [List.dropWhile_cons, hc]

lemma dropWhile_concat_eq_self (p : Char → Bool) (l : List Char) (a : Char)
    (h : ∀ c ∈ l.take 1, p c = false) (ha : p a = false) :
    (l ++ [a]).dropWhile p = l ++ [a] := by
  cases l with
  | nil => simp [List.dropWhile_cons, ha]
  | cons c rest =>
    have hc : p c = false := h c (by simp)
    simp [List.dropWhile_cons, hc]

lemma dropTrailing_eq_self (p : Char → Bool) (l : List Char)
    (h : ∀ c ∈ l.reverse.take 1, p c = false) : dropTrailing p l = l := by
  unfold dropTrailing
  rw [dropWhile_eq_self_of_head p l.reverse h, List.reverse_reverse]

lemma dropTrailing_concat (p : Char → Bool) (l : List Char) (a : Char) (ha : p a = true) :
    dropTrailing p (l ++ [a]) = dropTrailing p l := by
  unfold dropTrailing
  simp [List.reverse_append, List.dropWhile_cons, ha]

/-! ### Helper lemmas on the collector -/

lemma processCommits_eq (F : List (List Char)) (cs : List Commit)
    (h : ∀ c ∈ cs, mkEvidence F c ≠ EvStep.crash) :
    processCommits F cs = some (cs.filterMap (mkEvidence? F)) := by
  induction cs with
  | nil => rfl
  | cons c cs ih =>
    have hc := h c (List.mem_cons_self c cs)
    have ih2 := ih (fun x hx => h x (List.mem_cons_of_mem _ hx))
    rcases hmk : mkEvidence F c with _ | _ | e
    · exact absurd hmk hc
    · simp [processCommits, hmk, ih2, mkEvidence?]
    · simp [processCommits, hmk, ih2, mkEvidence?]

lemma pagesRecs_append (F : List (List Char)) (a b : List Page) :
    pagesRecs F (a ++ b) = pagesRecs F a ++ pagesRecs F b := by
  induction a with
  | nil => simp [pagesRecs]
  | cons p a ih => simp [pagesRecs, ih]

/-- Running the loop through a block of pages that all succeed and all
advertise a next pointer consumes exactly those pages, appends their
matching records to the accumulator, and continues with the remaining
transport responses. -/
lemma collect_run (F : List (List Char)) :
    ∀ (ps rest : List Page) (first : Bool) (acc : List Evidence) (cnt : Nat),
    (∀ p ∈ ps, p.status = 200 ∧ p.next = true) →
    (∀ p ∈ ps, ∀ c ∈ p.values, mkEvidence F c ≠ EvStep.crash) →
    collectLoop F (ps ++ rest) first acc cnt
      = collectLoop F rest (ps.isEmpty && first) (acc ++ pagesRecs F ps) (cnt + ps.length) := by
  intro ps
  induction ps with
  | nil => intro rest first acc cnt _ _; simp [pagesRecs]
  | cons p ps ih =>
    intro rest first acc cnt hs hc
    have hp := hs p (List.mem_cons_self p ps)
    have hproc := processCommits_eq F p.values (hc p (List.mem_cons_self p ps))
    have hrec := ih rest false (acc ++ p.values.filterMap (mkEvidence? F)) (cnt + 1)
      (fun q hq => hs q (List.mem_cons_of_mem _ hq))
      (fun q hq => hc q (List.mem_cons_of_mem _ hq))
    simp only [List.cons_append, collectLoop, hp.1, hp.2, hproc, List.append_eq]
    simp only [ne_eq, not_true_eq_false, and_false, if_false, if_true, ite_true, ite_false,
      reduceIte]
    rw [hrec]
    simp only [List.isEmpty_cons, Bool.false_and, Bool.and_false, List.append_assoc, pagesRecs,
      List.length_cons]
    have hcnt : cnt + 1 + ps.length = cnt + (ps.length + 1) := by omega
    rw [hcnt]

/-- A full successful chain: every page before the last succeeds and points
onward, the last succeeds and has no next pointer.  The loop visits every
page and ends in the final return of api.py:76-79. -/
lemma collect_chain (F : List (List Char)) (ps : List Page) (last : Page)
    (hs : ∀ p ∈ ps, p.status = 200 ∧ p.next = true)
    (hl : last.status = 200) (hln : last.next = false)
    (hc : ∀ p ∈ ps ++ [last], ∀ c ∈ p.values, mkEvidence F c ≠ EvStep.crash) :
    collectLoop F (ps ++ [last]) true [] 0
      = finishAcc (pagesRecs F (ps ++ [last])) (ps.length + 1) := by
  have hproc := processCommits_eq F last.values
    (hc last (List.mem_append_right _ (List.mem_cons_self _ _)))
  rw [collect_run F ps [last] true [] 0 hs
    (fun p hp => hc p (List.mem_append_left _ hp))]
  simp only [collectLoop, hl, hln, hproc, List.nil_append, Nat.zero_add]
  simp only [ne_eq, not_true_eq_false, and_false, if_false, ite_true, ite_false, reduceIte,
    Bool.false_eq_true]
  rw [pagesRecs_append]
  simp [pagesRecs]

/-- Any run over pages that all report success ends with status 200 or 404
(when it produces a final status at all). -/
lemma collect_status (F : List (List Char)) :
    ∀ (pages : List Page) (first : Bool) (acc : List Evidence) (cnt : Nat)
      (S : Nat) (recs : List Evidence) (n : Nat),
    (∀ p ∈ pages, p.status = 200) →
    collectLoop F pages first acc cnt = CollectResult.ok S recs n → S = 200 ∨ S = 404 := by
  intro pages
  induction pages with
  | nil =>
    intro first acc cnt S recs n _ h
    exact absurd h (by simp [collectLoop])
  | cons p ps ih =>
    intro first acc cnt S recs n hs h
    have h200 := hs p (List.mem_cons_self p ps)
    simp only [collectLoop, h200] at h
    simp only [ne_eq, not_true_eq_false, and_false, if_false, ite_true, ite_false,
      reduceIte] at h
    rcases hproc : processCommits F p.values with _ | evs
    · rw [hproc] at h
      exact absurd h (by simp)
    · rw [hproc] at h
      rcases hn : p.next with _ | _
      · rw [hn] at h
        simp only [Bool.false_eq_true, if_false, ite_false, reduceIte] at h
        unfold finishAcc at h
        split at h
        · simp only [CollectResult.ok.injEq] at h
          exact Or.inr h.1.symm
        · simp only [CollectResult.ok.injEq] at h
          exact Or.inl h.1.symm
      · rw [hn] at h
        simp only [if_true, ite_true, reduceIte] at h
        exact ih false (acc ++ evs) (cnt + 1) S recs n
          (fun q hq => hs q (List.mem_cons_of_mem _ hq)) h

/-! ### Claims C2, C4, C5, C8, C9, C10: the Evidence Collector -/

/-- C2, counterexample: a commit tagged `testcase: [B]` filtered against the
requested id `B` is emitted with `function_id = "B"`, which IS the
comma-join of the commit's full declared tag list — refuting the claim
that `function_id` is "never equal to the full tag list". -/
theorem C2_counterexample :
    get_commits ("B".toList)
        [⟨200, [⟨"h2".toList, "testcase: [B]".toList, "J <j@x>".toList, 200, "d2".toList⟩],
          false⟩]
      = CollectResult.ok 200
          [⟨"h2".toList, "testcase: [B]".toList, "J".toList, "j@x".toList, "B".toList,
            some ("d2".toList)⟩] 1
    ∧ joinCommaSpace (tagIdsOf ("B".toList)) = "B".toList := by
  constructor
  · decide
  · decide

/-- C2, amended: every emitted evidence record's `function_id` is the
comma-join of the tag ids that are both declared in the commit's tag block
and requested by the caller, in the commit's own tag order (it coincides
with the full declared list exactly when every declared tag is requested);
a commit with no tag block, or with empty intersection, is skipped; and the
message `testcase: [A, B]` filtered against requested ids `B,C` yields
`function_id = "B"`. -/
theorem C2_amended :
    (∀ (F : List (List Char)) (c : Commit) (e : Evidence),
        mkEvidence F c = EvStep.emit e →
        ∃ cap, findTag (pyStripWs c.message) = some cap ∧
          e.function_id = joinCommaSpace ((tagIdsOf cap).filter (fun t => F.contains t)) ∧
          F.any (fun fid => (tagIdsOf cap).contains fid) = true)
    ∧ (∀ (F : List (List Char)) (c : Commit),
        findTag (pyStripWs c.message) = none → mkEvidence F c = EvStep.skip)
    ∧ (∀ (F : List (List Char)) (c : Commit) (cap : List Char),
        findTag (pyStripWs c.message) = some cap →
        F.any (fun fid => (tagIdsOf cap).contains fid) = false →
        mkEvidence F c = EvStep.skip)
    ∧ mkEvidence (filterIdsOf ("B,C".toList))
        ⟨"h1".toList, "testcase: [A, B]".toList, "Jane Doe <jane@x.com>".toList, 200,
          "d1".toList⟩
      = EvStep.emit
          ⟨"h1".toList, "testcase: [A, B]".toList, "Jane Doe".toList, "jane@x.com".toList,
            "B".toList, some ("d1".toList)⟩ := by
  refine ⟨?_, ?_, ?_, by decide⟩
  · intro F c e h
    rcases hft : findTag (pyStripWs c.message) with _ | cap
    · simp only [mkEvidence, hft] at h
      exact absurd h (by simp)
    · rcases hany : F.any (fun fid => (tagIdsOf cap).contains fid) with _ | _
      · simp only [mkEvidence, hft] at h
        rw [hany] at h
        simp only [Bool.false_eq_true, if_false, ite_false, reduceIte] at h
        exact absurd h (by simp)
      · rcases hpa : parseAuthor c.authorRaw with _ | ⟨u, em⟩
        · simp only [mkEvidence, hft] at h
          rw [hany] at h
          simp only [reduceIte] at h
          rw [hpa] at h
          exact absurd h (by simp)
        · refine ⟨cap, rfl, ?_, hany⟩
          simp only [mkEvidence, hft] at h
          rw [hany] at h
          simp only [reduceIte] at h
          rw [hpa] at h
          simp only [EvStep.emit.injEq] at h
          rw [← h]
  · intro F c h
    simp [mkEvidence, h]
  · intro F c cap h hany
    simp only [mkEvidence, h]
    rw [hany]
    simp

theorem C2_amended_witness :
    mkEvidence [] ⟨"h".toList, "hello".toList, "a <b>".toList, 200, "d".toList⟩
      = EvStep.skip :=
  C2_amended.2.1 [] ⟨"h".toList, "hello".toList, "a <b>".toList, 200, "d".toList⟩ (by decide)

/-- C4, counterexample: a first-page transport failure with status 404
returns `(404, [])`, which is byte-for-byte the same result as a run whose
single page succeeds but matches nothing — so the failure result is NOT
always distinguishable from the no-match result, refuting the claim's
distinguishability conjunct at `S = 404`. -/
theorem C4_counterexample :
    get_commits ("B".toList) [⟨404, [], false⟩] = CollectResult.ok 404 [] 1
    ∧ get_commits ("B".toList) [⟨200, [], false⟩] = CollectResult.ok 404 [] 1 := by
  constructor
  · decide
  · decide

/-- C4, amended: a non-success status `S` on the first page makes
`get_commits` return `(S, [])` immediately, after exactly one page request;
for `S ≠ 404` this result differs from the result of every run whose pages
all succeed (those always end in 200 or 404), while a first-page 404
coincides with the no-match result.  In particular a first-page 503 yields
`(503, [])`. -/
theorem C4_amended (fid : List Char) (S : Nat) (vs : List Commit) (nx : Bool)
    (rest : List Page) (hS : S ≠ 200) :
    get_commits fid (⟨S, vs, nx⟩ :: rest) = CollectResult.ok S [] 1
    ∧ (S ≠ 404 → ∀ pages2, (∀ p ∈ pages2, p.status = 200) →
        get_commits fid pages2 ≠ get_commits fid (⟨S, vs, nx⟩ :: rest)) := by
  have h1 : get_commits fid (⟨S, vs, nx⟩ :: rest) = CollectResult.ok S [] 1 := by
    unfold get_commits
    simp [collectLoop, hS]
  refine ⟨h1, fun h404 pages2 hp2 heq => ?_⟩
  rw [h1] at heq
  unfold get_commits at heq
  rcases collect_status (filterIdsOf fid) pages2 true [] 0 S [] 1 hp2 heq with h | h
  · exact hS h
  · exact h404 h

theorem C4_amended_witness :
    get_commits ("B".toList) [⟨503, [], false⟩] = CollectResult.ok 503 [] 1 :=
  (C4_amended ("B".toList) 503 [] false [] (by decide)).1

/-- C5: for a chain of `N = ps.length + 1` pages in which every page
succeeds, all but the last advertise a next pointer and the last omits it,
`get_commits` issues exactly `N` page requests, terminates, and its output
is the final return over the matching records of all `N` pages in
traversal order.  (The crash-freedom hypothesis rules out the unrelated
author `IndexError` of claim C9.) -/
theorem C5_pagination (fid : List Char) (ps : List Page) (last : Page)
    (hs : ∀ p ∈ ps, p.status = 200 ∧ p.next = true)
    (hl : last.status = 200) (hln : last.next = false)
    (hc : ∀ p ∈ ps ++ [last], ∀ c ∈ p.values,
        mkEvidence (filterIdsOf fid) c ≠ EvStep.crash) :
    get_commits fid (ps ++ [last])
      = finishAcc (pagesRecs (filterIdsOf fid) (ps ++ [last])) ((ps ++ [last]).length) := by
  unfold get_commits
  rw [collect_chain (filterIdsOf fid) ps last hs hl hln hc]
  simp

theorem C5_pagination_witness :
    get_commits ("B".toList)
        [⟨200, [⟨"h2".toList, "testcase: [B]".toList, "J <j@x>".toList, 200, "d2".toList⟩],
          true⟩,
         ⟨200, [], false⟩]
      = CollectResult.ok 200
          [⟨"h2".toList, "testcase: [B]".toList, "J".toList, "j@x".toList, "B".toList,
            some ("d2".toList)⟩] 2 := by
  have h := C5_pagination ("B".toList)
    [⟨200, [⟨"h2".toList, "testcase: [B]".toList, "J <j@x>".toList, 200, "d2".toList⟩], true⟩]
    ⟨200, [], false⟩ (by decide) (by decide) (by decide) (by decide)
  exact h.trans (by decide)

/-- C8: a raw author string of the exact form `Name <email>` — one `<`,
name and email free of angle brackets and of leading/trailing whitespace —
splits into `author_username = Name` and `author_email = email`, and
re-rendering these as `username <email>` in the prompt reconstructs the
original raw string. -/
theorem C8_author_roundtrip (name email : List Char)
    (h1 : ∀ c ∈ name, c ≠ '<')
    (h2 : ∀ c ∈ email, c ≠ '<')
    (h3 : ∀ c ∈ email, c ≠ '>')
    (h4 : ∀ c ∈ name.take 1, isPySpace c = false)
    (h5 : ∀ c ∈ name.reverse.take 1, isPySpace c = false)
    (h6 : ∀ c ∈ email.take 1, isPySpace c = false) :
    parseAuthor (renderAuthor name email) = some (name, email)
    ∧ ∀ u em, parseAuthor (renderAuthor name email) = some (u, em) →
        renderAuthor u em = renderAuthor name email := by
  have hsplit : pySplitChar '<' (renderAuthor name email)
      = [name ++ [' '], email ++ ['>']] := by
    have hshape : renderAuthor name email = (name ++ [' ']) ++ '<' :: (email ++ ['>']) := by
      simp [renderAuthor]
    rw [hshape, pySplitChar_append_sep '<' (name ++ [' ']) (email ++ ['>'])
        (fun c hc => by
          rcases List.mem_append.mp hc with hm | hm
          · exact h1 c hm
          · simp only [List.mem_singleton] at hm
            subst hm
            decide),
      pySplitChar_of_no_sep '<' (email ++ ['>'])
        (fun c hc => by
          rcases List.mem_append.mp hc with hm | hm
          · exact h2 c hm
          · simp only [List.mem_singleton] at hm
            subst hm
            decide)]
  have hu : pyStripWs (name ++ [' ']) = name := by
    unfold pyStripWs stripBy
    rw [dropTrailing_concat isPySpace name ' ' (by decide),
      dropTrailing_eq_self isPySpace name h5,
      dropWhile_eq_self_of_head isPySpace name h4]
  have he1 : pyStripWs (email ++ ['>']) = email ++ ['>'] := by
    unfold pyStripWs stripBy
    rw [dropTrailing_eq_self isPySpace (email ++ ['>'])
        (fun c hc => by
          simp only [List.reverse_append, List.reverse_cons, List.reverse_nil,
            List.nil_append, List.singleton_append, List.take_succ_cons, List.take_zero,
            List.mem_singleton] at hc
          subst hc
          decide),
      dropWhile_concat_eq_self isPySpace email '>' h6 (by decide)]
  have he2 : pyStripGt (email ++ ['>']) = email := by
    unfold pyStripGt stripBy
    rw [dropTrailing_concat (fun c => c = '>') email '>' (by decide),
      dropTrailing_eq_self (fun c => c = '>') email
        (fun c hc => by
          have hmem : c ∈ email := List.mem_reverse.mp (List.mem_of_mem_take hc)
          simpa using h3 c hmem),
      dropWhile_eq_self_of_head (fun c => c = '>') email
        (fun c hc => by
          have hmem : c ∈ email := List.mem_of_mem_take hc
          simpa using h3 c hmem)]
  have hpa : parseAuthor (renderAuthor name email) = some (name, email) := by
    unfold parseAuthor
    rw [hsplit]
    simp only []
    rw [hu, he1, he2]
  refine ⟨hpa, fun u em hp => ?_⟩
  rw [hpa] at hp
  obtain ⟨rfl, rfl⟩ : name = u ∧ email = em := by simpa using hp
  rfl

theorem C8_author_roundtrip_witness :
    parseAuthor (renderAuthor ("Jane Doe".toList) ("jane@x.com".toList))
      = some ("Jane Doe".toList, "jane@x.com".toList) :=
  (C8_author_roundtrip ("Jane Doe".toList) ("jane@x.com".toList)
    (by decide) (by decide) (by decide) (by decide) (by decide) (by decide)).1

/-- C9: a matching commit (tag block found, nonempty intersection with the
requested ids) whose raw author string contains no `<` makes the author
split raise an uncaught `IndexError`, so the whole collection run aborts
instead of degrading. -/
theorem C9_author_crash (fid : List Char) (c : Commit) (cap : List Char)
    (h1 : findTag (pyStripWs c.message) = some cap)
    (h2 : (filterIdsOf fid).any (fun f => (tagIdsOf cap).contains f) = true)
    (h3 : ∀ ch ∈ c.authorRaw, ch ≠ '<') :
    mkEvidence (filterIdsOf fid) c = EvStep.crash
    ∧ get_commits fid [⟨200, [c], false⟩] = CollectResult.exn := by
  have hpa : parseAuthor c.authorRaw = none := by
    unfold parseAuthor
    rw [pySplitChar_of_no_sep '<' c.authorRaw h3]
  have hmk : mkEvidence (filterIdsOf fid) c = EvStep.crash := by
    simp only [mkEvidence, h1]
    rw [h2]
    simp only [reduceIte]
    rw [hpa]
  refine ⟨hmk, ?_⟩
  unfold get_commits
  simp [collectLoop, processCommits, hmk]

theorem C9_author_crash_witness :
    get_commits ("B".toList)
        [⟨200, [⟨"h4".toList, "testcase: [B]".toList, "Jane Doe".toList, 200, "d4".toList⟩],
          false⟩]
      = CollectResult.exn :=
  (C9_author_crash ("B".toList)
    ⟨"h4".toList, "testcase: [B]".toList, "Jane Doe".toList, 200, "d4".toList⟩
    ("B".toList) (by decide) (by decide) (by decide)).2

/-- C10: when a page after the first returns a non-success status, the loop
silently stops and returns the matches of the earlier successful pages as
a final result (200, or 404 if none matched) after one extra request — and
that status/record pair is identical to the one produced by a complete,
successful retrieval of exactly those earlier pages, so the truncation is
invisible to the caller. -/
theorem C10_midfail (fid : List Char) (gps : List Page) (h : gps ≠ []) (bad : Page)
    (rest : List Page)
    (hs : ∀ p ∈ gps, p.status = 200 ∧ p.next = true)
    (hbad : bad.status ≠ 200)
    (hc : ∀ p ∈ gps, ∀ c ∈ p.values, mkEvidence (filterIdsOf fid) c ≠ EvStep.crash) :
    get_commits fid (gps ++ bad :: rest)
      = finishAcc (pagesRecs (filterIdsOf fid) gps) (gps.length + 1)
    ∧ get_commits fid (gps.dropLast ++ [withNextFalse (gps.getLast h)])
      = finishAcc (pagesRecs (filterIdsOf fid) gps) gps.length := by
  have hne : gps.isEmpty = false := by
    cases gps with
    | nil => exact absurd rfl h
    | cons a b => rfl
  have hdec : gps.dropLast ++ [gps.getLast h] = gps := List.dropLast_append_getLast h
  constructor
  · unfold get_commits
    rw [collect_run (filterIdsOf fid) gps (bad :: rest) true [] 0 hs hc]
    simp only [hne, Bool.false_and, List.nil_append, Nat.zero_add]
    simp [collectLoop, hbad]
  · have hsub : ∀ p ∈ gps.dropLast, p ∈ gps :=
      fun p hp => (List.dropLast_sublist gps).subset hp
    have hlast : gps.getLast h ∈ gps := List.getLast_mem h
    have hs2 : ∀ p ∈ gps.dropLast, p.status = 200 ∧ p.next = true :=
      fun p hp => hs p (hsub p hp)
    have hl : (withNextFalse (gps.getLast h)).status = 200 := (hs _ hlast).1
    have hc2 : ∀ p ∈ gps.dropLast ++ [withNextFalse (gps.getLast h)], ∀ c ∈ p.values,
        mkEvidence (filterIdsOf fid) c ≠ EvStep.crash := by
      intro p hp
      rcases List.mem_append.mp hp with hm | hm
      · exact hc p (hsub p hm)
      · simp only [List.mem_singleton] at hm
        subst hm
        exact fun cc hcc => hc (gps.getLast h) hlast cc hcc
    have hlen : gps.dropLast.length + 1 = gps.length := by
      have := congrArg List.length hdec
      simp only [List.length_append, List.length_singleton] at this
      omega
    have hrecs : pagesRecs (filterIdsOf fid) (gps.dropLast ++ [withNextFalse (gps.getLast h)])
        = pagesRecs (filterIdsOf fid) gps := by
      conv_rhs => rw [← hdec]
      rw [pagesRecs_append, pagesRecs_append]
      rfl
    unfold get_commits
    rw [collect_chain (filterIdsOf fid) gps.dropLast (withNextFalse (gps.getLast h))
      hs2 hl rfl hc2, hrecs, hlen]

theorem C10_midfail_witness :
    get_commits ("B".toList)
        [⟨200, [⟨"h2".toList, "testcase: [B]".toList, "J <j@x>".toList, 200, "d2".toList⟩],
          true⟩,
         ⟨503, [], false⟩]
      = CollectResult.ok 200
          [⟨"h2".toList, "testcase: [B]".toList, "J".toList, "j@x".toList, "B".toList,
            some ("d2".toList)⟩] 2 := by
  have h := (C10_midfail ("B".toList)
    [⟨200, [⟨"h2".toList, "testcase: [B]".toList, "J <j@x>".toList, 200, "d2".toList⟩], true⟩]
    (by simp) ⟨503, [], false⟩ [] (by decide) (by decide) (by decide)).1
  exact h.trans (by decide)

end Devora
